import Mathlib

set_option maxHeartbeats 1000000
set_option linter.unusedVariables false

namespace HyperKart

/-- Performance stats of a selectable car, from the CARS table in the source. -/
structure CarStats where
  accel : ℝ
  maxSpeed : ℝ
  handling : ℝ

/-- The four level-triggered input flags sampled each tick. -/
structure Controls where
  left : Bool
  right : Bool
  up : Bool
  down : Bool

/-- Kart kinematic state owned by the simulation (the refs inside the Kart component):
forward speed scalar, yaw, planar position (x, z), previous tick angle, the half-lap
checkpoint gate and the last boost timestamp. -/
structure KartState where
  vel : ℝ
  yaw : ℝ
  posX : ℝ
  posZ : ℝ
  lastAngle : ℝ
  checkpoint : Bool
  lastBoostTime : ℝ

/-- Race store state from useRaceStore: currentLap, totalLaps, finished, innerR, outerR. -/
structure RaceState where
  currentLap : ℤ
  totalLaps : ℤ
  finished : Bool
  innerR : ℝ
  outerR : ℝ

/-- Cosmetic track record from the TRACKS table; it carries no geometry. -/
structure Track where
  id : String
  name : String
  theme : String
  sky : String
  fog : String
  seatColor : String
  turf : String

/-- The Sprinter car from the CARS table. -/
def sprinter : CarStats := ⟨9.5, 28, 1.0⟩

/-- The Torque car from the CARS table. -/
def torque : CarStats := ⟨7.5, 34, 0.8⟩

/-- The Glider car from the CARS table. -/
def glider : CarStats := ⟨8.5, 31, 1.1⟩

/-- The Bulldog car from the CARS table. -/
def bulldog : CarStats := ⟨6.5, 36, 0.7⟩

/-- The CARS selection list. -/
def CARS : List CarStats := [sprinter, torque, glider, bulldog]

/-- The classic stadium track record. -/
def trackClassic : Track :=
  ⟨"classic", "Stadium Classic", "classic", "#87ceeb", "#a6d5f7", "#334155", "#2e7d32"⟩

/-- The city stadium track record. -/
def trackCity : Track :=
  ⟨"city", "Stadium City", "city", "#cfe3ff", "#9bb7e2", "#1f2937", "#1b5e20"⟩

/-- The wild west stadium track record. -/
def trackWest : Track :=
  ⟨"west", "Stadium Wild West", "west", "#ffcc80", "#ffc080", "#5d4037", "#8d6e63"⟩

/-- The TRACKS selection list. -/
def TRACKS : List Track := [trackClassic, trackCity, trackWest]

/-- Default lap count. -/
def DEFAULT_LAPS : ℤ := 3

/-- clamp(v, min, max) = Math.min(max, Math.max(min, v)), source line 85. -/
noncomputable def clamp (v lo hi : ℝ) : ℝ := min hi (max lo v)

/-- JavaScript remainder a % b (truncated division), over the reals. -/
noncomputable def jsMod (a b : ℝ) : ℝ :=
  a - b * ((if 0 ≤ a / b then ⌊a / b⌋ else ⌈a / b⌉ : ℤ) : ℝ)

/-- normalizeAngle from source lines 511-513: reduce modulo 2π, then shift into [-π, π]. -/
noncomputable def normalizeAngle (a : ℝ) : ℝ :=
  let x := jsMod a (2 * Real.pi)
  let x1 := if x < -Real.pi then x + 2 * Real.pi else x
  if x1 > Real.pi then x1 - 2 * Real.pi else x1

/-- Math.atan2(y, x) over the reals, range [-π, π]. -/
noncomputable def atan2 (y x : ℝ) : ℝ :=
  if 0 < x then Real.arctan (y / x)
  else if x < 0 then
    (if 0 ≤ y then Real.arctan (y / x) + Real.pi else Real.arctan (y / x) - Real.pi)
  else if 0 < y then Real.pi / 2
  else if y < 0 then -(Real.pi / 2)
  else 0

/-- Longitudinal dynamics, source lines 429-437: throttle accelerates, otherwise coast
friction decays the speed, brake subtracts; every write is clamped to
[-maxSpeed * 0.3, maxSpeed]. -/
noncomputable def velAfterInputs (car : CarStats) (ctl : Controls) (dt vel : ℝ) : ℝ :=
  let accel := car.accel * 0.6
  let braking := car.accel * 0.8
  let v1 :=
    if ctl.up then clamp (vel + accel * dt) (-car.maxSpeed * 0.3) car.maxSpeed
    else clamp (vel - accel * 0.4 * dt) (-car.maxSpeed * 0.3) car.maxSpeed
  if ctl.down then clamp (v1 - braking * dt) (-car.maxSpeed * 0.3) car.maxSpeed else v1

/-- Steering, source lines 439-443; vel is the already-updated forward speed. -/
noncomputable def yawAfterSteer (car : CarStats) (ctl : Controls) (dt vel yaw : ℝ) : ℝ :=
  let speedFactor := clamp (|vel| / car.maxSpeed) 0 1
  let steerStrength := car.handling * (0.9 * speedFactor + 0.1)
  let y1 := if ctl.left then yaw + 1.8 * steerStrength * dt else yaw
  if ctl.right then y1 - 1.8 * steerStrength * dt else y1

/-- Ring boundary resolution, source lines 449-459. Both branches test the hypot r of
the integrated position (computed once); each projection divides by that same r. -/
noncomputable def boundaryStep (innerR outerR px pz vel : ℝ) : ℝ × ℝ × ℝ :=
  let r := Real.sqrt (px ^ 2 + pz ^ 2)
  let px1 := if r < innerR then px * (innerR / r) else px
  let pz1 := if r < innerR then pz * (innerR / r) else pz
  let v1 := if r < innerR then vel * 0.6 else vel
  let px2 := if r > outerR then px1 * (outerR / r) else px1
  let pz2 := if r > outerR then pz1 * (outerR / r) else pz1
  let v2 := if r > outerR then v1 * 0.6 else v1
  (px2, pz2, v2)

/-- Boost pad angular window centers, source line 463. -/
noncomputable def boostPads : List ℝ := [Real.pi / 4, Real.pi, 3 * Real.pi / 2]

/-- On-pad test for one pad center, source lines 465-466: angular distance below π/12
and radial distance from the ring center-line below a third of the ring width.
The radius r here is the pre-boundary-resolution hypot, as in the source. -/
noncomputable def onPad (ang r centerR innerR outerR a : ℝ) : Prop :=
  |normalizeAngle (ang - a)| < Real.pi / 12 ∧ |r - centerR| < (outerR - innerR) / 3

noncomputable instance (ang r centerR innerR outerR a : ℝ) :
    Decidable (onPad ang r centerR innerR outerR a) := by
  unfold onPad; infer_instance

/-- Body of the pad loop, source lines 464-471; acc is (vel, lastBoostTime). -/
noncomputable def boostPadStep (maxSpeed elapsedTime ang r centerR innerR outerR : ℝ)
    (acc : ℝ × ℝ) (a : ℝ) : ℝ × ℝ :=
  if onPad ang r centerR innerR outerR a ∧ elapsedTime - acc.2 > 1.0 then
    (min (maxSpeed * 1.2) (acc.1 + 8), elapsedTime)
  else acc

/-- The pad loop over the three pads, source lines 463-471. -/
noncomputable def boostStep (maxSpeed elapsedTime ang r centerR innerR outerR vel
    lastBoost : ℝ) : ℝ × ℝ :=
  boostPads.foldl (boostPadStep maxSpeed elapsedTime ang r centerR innerR outerR)
    (vel, lastBoost)

/-- Checkpoint arming, source lines 476-477: crossedHalf sets the half-lap gate. -/
noncomputable def armedAfterHalf (angPrev ang : ℝ) (cp : Bool) : Bool :=
  if (angPrev < Real.pi ∧ Real.pi ≤ ang) ∨ (-Real.pi < angPrev ∧ ang ≤ -Real.pi) then true
  else cp

/-- Lap detection and race store update, source lines 473-486: a lap counts when the
angle crosses zero from negative to non-negative, the (pre-boundary) radius is within
half the ring width of the center-line, and the checkpoint gate (after this tick's
arming) is set. Returns the new checkpoint flag and race state. -/
noncomputable def lapStep (innerR outerR angPrev ang r : ℝ) (cp : Bool)
    (race : RaceState) : Bool × RaceState :=
  let centerR := (innerR + outerR) / 2
  let cp1 := armedAfterHalf angPrev ang cp
  if angPrev < 0 ∧ 0 ≤ ang ∧ |r - centerR| < (outerR - innerR) / 2 ∧ cp1 = true then
    (false,
      { race with
          currentLap := race.currentLap + 1
          finished := decide (race.currentLap + 1 > race.totalLaps) })
  else (cp1, race)

/-- One simulation tick of the Kart useFrame callback, source lines 425-493: clamp dt,
longitudinal dynamics, steering, Euler integration, boundary resolution (r computed
once, before resolution), boost pads on the post-resolution angle but pre-resolution
radius, then lap detection. -/
noncomputable def kartTick (car : CarStats) (ctl : Controls) (elapsedTime dtRaw : ℝ)
    (k : KartState) (race : RaceState) : KartState × RaceState :=
  let dt := if dtRaw > 0.05 then 0.05 else dtRaw
  let vel2 := velAfterInputs car ctl dt k.vel
  let yaw2 := yawAfterSteer car ctl dt vel2 k.yaw
  let px1 := k.posX + Real.cos yaw2 * vel2 * dt
  let pz1 := k.posZ + Real.sin yaw2 * vel2 * dt
  let r := Real.sqrt (px1 ^ 2 + pz1 ^ 2)
  let centerR := (race.innerR + race.outerR) / 2
  let b := boundaryStep race.innerR race.outerR px1 pz1 vel2
  let ang := atan2 b.2.1 b.1
  let bo := boostStep car.maxSpeed elapsedTime ang r centerR race.innerR race.outerR
    b.2.2 k.lastBoostTime
  let lp := lapStep race.innerR race.outerR k.lastAngle ang r k.checkpoint race
  ({ vel := bo.1, yaw := yaw2, posX := b.1, posZ := b.2.1, lastAngle := ang,
     checkpoint := lp.1, lastBoostTime := bo.2 }, lp.2)

/-- Initial kart state: on the start line at x = 12 + 5, source lines 416-422. -/
noncomputable def kartInit : KartState := ⟨0, 0, 12 + 5, 0, 0, false, 0⟩

/-- Race store contents at session start, source lines 520 and 559: lap 1, not
finished, ring radii 12 and 22. -/
def initialRaceState (laps : ℤ) : RaceState := ⟨1, laps, false, 12, 22⟩

/-- Controls with every flag false. -/
def ctlNone : Controls := ⟨false, false, false, false⟩

/-- Run a list of ticks; each entry is (controls, elapsedTime, dt). -/
noncomputable def runTicks (car : CarStats) (ticks : List (Controls × ℝ × ℝ))
    (s : KartState × RaceState) : KartState × RaceState :=
  ticks.foldl (fun p t => kartTick car t.1 t.2.1 t.2.2 p.1 p.2) s

/-- A full race session for a selected track. As in the source, the physics reads only
the race store constants and the car stats; the track record reaches only the visuals. -/
noncomputable def runRace (track : Track) (car : CarStats) (laps : ℤ)
    (ticks : List (Controls × ℝ × ℝ)) : KartState × RaceState :=
  runTicks car ticks (kartInit, initialRaceState laps)

/-- The coast scenario: repeated ticks with all intents false and dt = 0.05, starting
from the session start state with the Sprinter car. -/
noncomputable def coastRun : ℕ → KartState × RaceState
  | 0 => (kartInit, initialRaceState 3)
  | n + 1 => kartTick sprinter ctlNone (n * 0.05) 0.05 (coastRun n).1 (coastRun n).2

/-- One qualifying start-line crossing applied to the race store (checkpoint armed). -/
noncomputable def qualifyingCross (innerR outerR angPrev ang r : ℝ)
    (race : RaceState) : RaceState :=
  (lapStep innerR outerR angPrev ang r true race).2

lemma clamp_le_hi (v lo hi : ℝ) : clamp v lo hi ≤ hi := min_le_left _ _

lemma lo_le_clamp (v lo hi : ℝ) (h : lo ≤ hi) : lo ≤ clamp v lo hi :=
  le_min h (le_max_left _ _)

lemma clamp_of_mem (v lo hi : ℝ) (h1 : lo ≤ v) (h2 : v ≤ hi) : clamp v lo hi = v := by
  unfold clamp
  rw [max_eq_right h1, min_eq_right h2]

lemma jsMod_eq_self (a b : ℝ) (hb : 0 < b) (h1 : -b < a) (h2 : a < b) : jsMod a b = a := by
  unfold jsMod
  by_cases h : 0 ≤ a / b
  · rw [if_pos h]
    have hf : ⌊a / b⌋ = 0 := by
      rw [Int.floor_eq_zero_iff, Set.mem_Ico]
      exact ⟨h, by rwa [div_lt_one hb]⟩
    rw [hf]
    norm_num
  · rw [if_neg h]
    have hc : ⌈a / b⌉ = 0 := by
      rw [Int.ceil_eq_zero_iff, Set.mem_Ioc]
      refine ⟨?_, le_of_not_le h⟩
      rw [lt_div_iff hb]
      linarith
    rw [hc]
    norm_num

lemma normalizeAngle_eq_self (a : ℝ) (h1 : -Real.pi ≤ a) (h2 : a ≤ Real.pi) :
    normalizeAngle a = a := by
  have hpi := Real.pi_pos
  have hm : jsMod a (2 * Real.pi) = a :=
    jsMod_eq_self a _ (by linarith) (by linarith) (by linarith)
  unfold normalizeAngle
  rw [hm]
  dsimp only
  rw [if_neg (not_lt.mpr h1), if_neg (not_lt.mpr h2)]

lemma normalizeAngle_add_two_pi (a : ℝ) (h1 : -(2 * Real.pi) < a) (h2 : a < -Real.pi) :
    normalizeAngle a = a + 2 * Real.pi := by
  have hpi := Real.pi_pos
  have hm : jsMod a (2 * Real.pi) = a :=
    jsMod_eq_self a _ (by linarith) (by linarith) (by linarith)
  unfold normalizeAngle
  rw [hm]
  dsimp only
  rw [if_pos h2, if_neg (not_lt.mpr (by linarith))]

lemma atan2_zero_pos (x : ℝ) (h : 0 < x) : atan2 0 x = 0 := by
  unfold atan2
  rw [if_pos h, zero_div, Real.arctan_zero]

lemma atan2_zero_neg (x : ℝ) (h : x < 0) : atan2 0 x = Real.pi := by
  unfold atan2
  rw [if_neg (by linarith), if_pos h, if_pos le_rfl, zero_div, Real.arctan_zero, zero_add]

lemma sqrt_x_sq (x : ℝ) (h : 0 ≤ x) : Real.sqrt (x ^ 2 + 0 ^ 2) = x := by
  rw [show x ^ 2 + 0 ^ 2 = x ^ 2 by ring, Real.sqrt_sq h]

lemma radius_scale (px pz k : ℝ) (hk : 0 ≤ k) :
    Real.sqrt ((px * k) ^ 2 + (pz * k) ^ 2) = Real.sqrt (px ^ 2 + pz ^ 2) * k := by
  rw [show (px * k) ^ 2 + (pz * k) ^ 2 = (px ^ 2 + pz ^ 2) * k ^ 2 by ring,
    Real.sqrt_mul (by positivity), Real.sqrt_sq hk]

lemma lapStep_totalLaps (i o ap an r : ℝ) (cp : Bool) (race : RaceState) :
    ((lapStep i o ap an r cp race).2).totalLaps = race.totalLaps := by
  unfold lapStep
  dsimp only
  split_ifs <;> rfl

lemma lapStep_lap_mono (i o ap an r : ℝ) (cp : Bool) (race : RaceState) :
    race.currentLap ≤ ((lapStep i o ap an r cp race).2).currentLap := by
  unfold lapStep
  dsimp only
  split_ifs
  · dsimp only
    omega
  · exact le_refl _

lemma lapStep_finished_char (i o ap an r : ℝ) (cp : Bool) (race : RaceState)
    (h : race.finished = decide (race.totalLaps < race.currentLap)) :
    ((lapStep i o ap an r cp race).2).finished =
      decide (((lapStep i o ap an r cp race).2).totalLaps <
        ((lapStep i o ap an r cp race).2).currentLap) := by
  unfold lapStep
  dsimp only
  split_ifs
  · rfl
  · exact h

lemma kartTick_totalLaps (car : CarStats) (ctl : Controls) (t dt : ℝ)
    (k : KartState) (race : RaceState) :
    ((kartTick car ctl t dt k race).2).totalLaps = race.totalLaps := by
  unfold kartTick
  dsimp only
  exact lapStep_totalLaps _ _ _ _ _ _ _

lemma kartTick_lap_mono (car : CarStats) (ctl : Controls) (t dt : ℝ)
    (k : KartState) (race : RaceState) :
    race.currentLap ≤ ((kartTick car ctl t dt k race).2).currentLap := by
  unfold kartTick
  dsimp only
  exact lapStep_lap_mono _ _ _ _ _ _ _

lemma kartTick_finished_char (car : CarStats) (ctl : Controls) (t dt : ℝ)
    (k : KartState) (race : RaceState)
    (h : race.finished = decide (race.totalLaps < race.currentLap)) :
    ((kartTick car ctl t dt k race).2).finished =
      decide (((kartTick car ctl t dt k race).2).totalLaps <
        ((kartTick car ctl t dt k race).2).currentLap) := by
  unfold kartTick
  dsimp only
  exact lapStep_finished_char _ _ _ _ _ _ _ h

lemma runTicks_cons (car : CarStats) (t : Controls × ℝ × ℝ)
    (ts : List (Controls × ℝ × ℝ)) (s : KartState × RaceState) :
    runTicks car (t :: ts) s = runTicks car ts (kartTick car t.1 t.2.1 t.2.2 s.1 s.2) := rfl

lemma runTicks_append (car : CarStats) (L1 L2 : List (Controls × ℝ × ℝ))
    (s : KartState × RaceState) :
    runTicks car (L1 ++ L2) s = runTicks car L2 (runTicks car L1 s) := by
  unfold runTicks
  exact List.foldl_append _ _ _ _

lemma runTicks_totalLaps (car : CarStats) :
    ∀ (L : List (Controls × ℝ × ℝ)) (s : KartState × RaceState),
      ((runTicks car L s).2).totalLaps = s.2.totalLaps
  | [], s => rfl
  | t :: ts, s => by
    rw [runTicks_cons, runTicks_totalLaps car ts]
    exact kartTick_totalLaps _ _ _ _ _ _

lemma runTicks_lap_mono (car : CarStats) :
    ∀ (L : List (Controls × ℝ × ℝ)) (s : KartState × RaceState),
      s.2.currentLap ≤ ((runTicks car L s).2).currentLap
  | [], s => le_refl _
  | t :: ts, s => by
    rw [runTicks_cons]
    exact le_trans (kartTick_lap_mono _ _ _ _ _ _) (runTicks_lap_mono car ts _)

lemma runTicks_finished_char (car : CarStats) :
    ∀ (L : List (Controls × ℝ × ℝ)) (s : KartState × RaceState),
      s.2.finished = decide (s.2.totalLaps < s.2.currentLap) →
      ((runTicks car L s).2).finished =
        decide (((runTicks car L s).2).totalLaps < ((runTicks car L s).2).currentLap)
  | [], s, h => h
  | t :: ts, s, h => by
    rw [runTicks_cons]
    exact runTicks_finished_char car ts _ (kartTick_finished_char _ _ _ _ _ _ h)

/-- Claim C1 (code bug). The spec says the half-lap checkpoint arms whenever the
angular position crosses the ±π discontinuity between consecutive ticks. The code's
crossedHalf test compares the wrapped angles as if they were continuous, so on the
generic crossing angPrev = 3.1 (just below +π), ang = -3.1 (just above -π) - both
strictly inside (-π, π] - it evaluates to false and the checkpoint stays unarmed. -/
theorem c1_crossing_not_detected :
    ((3.1 : ℝ) < Real.pi ∧ -Real.pi < -3.1) ∧
    lapStep 12 22 3.1 (-3.1) 17 false (initialRaceState 3) = (false, initialRaceState 3) := by
  have hd2 := Real.pi_gt_d2
  have hpi := Real.pi_pos
  have h1 : (3.1 : ℝ) < Real.pi := by linarith
  have h2 : -Real.pi < (-3.1 : ℝ) := by linarith
  refine ⟨⟨h1, h2⟩, ?_⟩
  have harm : armedAfterHalf (3.1 : ℝ) (-3.1) false = false := by
    unfold armedAfterHalf
    rw [if_neg]
    rintro (⟨-, h⟩ | ⟨-, h⟩)
    · linarith
    · linarith
  unfold lapStep
  dsimp only
  rw [harm, if_neg]
  rintro ⟨h, -⟩
  norm_num at h

/-- Claim C4 (confirmed). A lap completes exactly when the angle crosses zero from
negative to non-negative, the radial distance to the ring center-line is below half the
ring width, and the checkpoint gate (as of this tick, after any same-tick arming) is
set: then currentLap increments by exactly 1, the checkpoint clears, and finished is
set to true exactly when the incremented lap exceeds totalLaps; otherwise the race
store is untouched. -/
theorem c4_lap_completion (i o angPrev ang r : ℝ) (cp : Bool) (race : RaceState) :
    ((angPrev < 0 ∧ 0 ≤ ang ∧ |r - (i + o) / 2| < (o - i) / 2 ∧
        armedAfterHalf angPrev ang cp = true) →
      lapStep i o angPrev ang r cp race =
        (false,
          { race with
              currentLap := race.currentLap + 1
              finished := decide (race.currentLap + 1 > race.totalLaps) })) ∧
    (¬(angPrev < 0 ∧ 0 ≤ ang ∧ |r - (i + o) / 2| < (o - i) / 2 ∧
        armedAfterHalf angPrev ang cp = true) →
      (lapStep i o angPrev ang r cp race).2 = race) := by
  constructor
  · intro h
    unfold lapStep
    dsimp only
    rw [if_pos h]
  · intro h
    unfold lapStep
    dsimp only
    rw [if_neg h]

/-- Witness for C4 at a concrete qualifying crossing. -/
theorem c4_witness :
    ((-0.1 : ℝ) < 0 ∧ (0 : ℝ) ≤ 0.2 ∧ |(17 : ℝ) - (12 + 22) / 2| < (22 - 12) / 2 ∧
      armedAfterHalf (-0.1) 0.2 true = true) ∧
    lapStep 12 22 (-0.1) 0.2 17 true (initialRaceState 3) =
      (false,
        { initialRaceState 3 with
            currentLap := (initialRaceState 3).currentLap + 1
            finished := decide ((initialRaceState 3).currentLap + 1 >
              (initialRaceState 3).totalLaps) }) := by
  have ha : armedAfterHalf (-0.1 : ℝ) 0.2 true = true := by
    unfold armedAfterHalf
    split_ifs <;> rfl
  have h : (-0.1 : ℝ) < 0 ∧ (0 : ℝ) ≤ 0.2 ∧ |(17 : ℝ) - (12 + 22) / 2| < (22 - 12) / 2 ∧
      armedAfterHalf (-0.1) 0.2 true = true :=
    ⟨by norm_num, by norm_num, by norm_num, ha⟩
  exact ⟨h, (c4_lap_completion 12 22 (-0.1) 0.2 17 true (initialRaceState 3)).1 h⟩

/-- Claim C5 (confirmed). In a session starting at lap 1 with totalLaps ≥ 1, the
finished flag is monotone along any tick trace (once true it stays true, so it
transitions false to true at most once), and at every prefix finished holds exactly
when currentLap exceeds totalLaps. -/
theorem c5_finished_monotone (car : CarStats) (L : List (Controls × ℝ × ℝ))
    (k0 : KartState) (T : ℤ) (i o : ℝ) (hT : 1 ≤ T) (m n : ℕ) (hmn : m ≤ n) :
    (((runTicks car (L.take m) (k0, ⟨1, T, false, i, o⟩)).2).finished = true →
      ((runTicks car (L.take n) (k0, ⟨1, T, false, i, o⟩)).2).finished = true) ∧
    (((runTicks car (L.take n) (k0, ⟨1, T, false, i, o⟩)).2).finished = true ↔
      T < ((runTicks car (L.take n) (k0, ⟨1, T, false, i, o⟩)).2).currentLap) := by
  have h0 : ((k0, (⟨1, T, false, i, o⟩ : RaceState)) : KartState × RaceState).2.finished =
      decide ((⟨1, T, false, i, o⟩ : RaceState).totalLaps <
        (⟨1, T, false, i, o⟩ : RaceState).currentLap) := by
    dsimp only
    rw [decide_eq_false (by omega)]
  have hchar : ∀ j : ℕ,
      ((runTicks car (L.take j) (k0, ⟨1, T, false, i, o⟩)).2).finished = true ↔
        T < ((runTicks car (L.take j) (k0, ⟨1, T, false, i, o⟩)).2).currentLap := by
    intro j
    have hc := runTicks_finished_char car (L.take j) (k0, ⟨1, T, false, i, o⟩) h0
    have ht := runTicks_totalLaps car (L.take j) (k0, ⟨1, T, false, i, o⟩)
    rw [hc, ht]
    dsimp only
    exact decide_eq_true_iff
  refine ⟨?_, hchar n⟩
  intro hm
  have hsplit : L.take n = L.take m ++ (L.drop m).take (n - m) := by
    rw [← List.take_add]
    congr 1
    omega
  have hlapm : T < ((runTicks car (L.take m) (k0, ⟨1, T, false, i, o⟩)).2).currentLap :=
    (hchar m).mp hm
  have hmono := runTicks_lap_mono car ((L.drop m).take (n - m))
    (runTicks car (L.take m) (k0, ⟨1, T, false, i, o⟩))
  rw [hchar n, hsplit, runTicks_append]
  omega

/-- Witness for C5 at the start of a one-lap session with an empty trace. -/
theorem c5_witness :
    ((1 : ℤ) ≤ 1 ∧ (0 : ℕ) ≤ 0) ∧
    ((((runTicks sprinter (([] : List (Controls × ℝ × ℝ)).take 0)
          (kartInit, ⟨1, 1, false, 12, 22⟩)).2).finished = true →
        (((runTicks sprinter (([] : List (Controls × ℝ × ℝ)).take 0)
          (kartInit, ⟨1, 1, false, 12, 22⟩)).2).finished = true)) ∧
      ((((runTicks sprinter (([] : List (Controls × ℝ × ℝ)).take 0)
          (kartInit, ⟨1, 1, false, 12, 22⟩)).2).finished = true) ↔
        1 < ((runTicks sprinter (([] : List (Controls × ℝ × ℝ)).take 0)
          (kartInit, ⟨1, 1, false, 12, 22⟩)).2).currentLap)) :=
  ⟨⟨le_refl 1, le_refl 0⟩,
    c5_finished_monotone sprinter [] kartInit 1 12 22 (le_refl 1) 0 0 (le_refl 0)⟩

/-- Claim C9 (confirmed). The simulated geometry is independent of the selected track:
two sessions with different track records but the same car, lap target and tick inputs
produce identical results, the race store radii are always 12 and 22, the pads sit at
π/4, π and 3π/2, and a pad can only fire when the angular distance is below π/12. -/
theorem c9_track_independence (t1 t2 : Track) (car : CarStats) (laps : ℤ)
    (ticks : List (Controls × ℝ × ℝ)) :
    runRace t1 car laps ticks = runRace t2 car laps ticks ∧
    (initialRaceState laps).innerR = 12 ∧ (initialRaceState laps).outerR = 22 ∧
    boostPads = [Real.pi / 4, Real.pi, 3 * Real.pi / 2] ∧
    (∀ M t ang r c i o (acc : ℝ × ℝ) a, ¬ |normalizeAngle (ang - a)| < Real.pi / 12 →
      boostPadStep M t ang r c i o acc a = acc) := by
  refine ⟨rfl, rfl, rfl, rfl, ?_⟩
  intro M t ang r c i o acc a h
  unfold boostPadStep
  exact if_neg (fun hc => h hc.1.1)

/-- Witness for C9: a pad whose angular window is missed leaves the state unchanged. -/
theorem c9_witness :
    (¬ |normalizeAngle ((0 : ℝ) - Real.pi)| < Real.pi / 12) ∧
    boostPadStep 28 2 0 17 17 12 22 (5, 0) Real.pi = (5, 0) := by
  have hpi := Real.pi_pos
  have h : ¬ |normalizeAngle ((0 : ℝ) - Real.pi)| < Real.pi / 12 := by
    rw [zero_sub, normalizeAngle_eq_self (-Real.pi) (le_refl _) (by linarith), abs_neg,
      abs_of_nonneg (by linarith)]
    linarith
  exact ⟨h, (c9_track_independence trackClassic trackClassic sprinter 3 []).2.2.2.2
    28 2 0 17 17 12 22 (5, 0) Real.pi h⟩

lemma qualifyingCross_eq (i o angPrev ang r : ℝ) (s : RaceState)
    (ha : angPrev < 0) (hb : 0 ≤ ang) (hc : |r - (i + o) / 2| < (o - i) / 2) :
    qualifyingCross i o angPrev ang r s =
      { s with
          currentLap := s.currentLap + 1
          finished := decide (s.currentLap + 1 > s.totalLaps) } := by
  have harm : armedAfterHalf angPrev ang true = true := by
    unfold armedAfterHalf
    split_ifs <;> rfl
  unfold qualifyingCross lapStep
  dsimp only
  rw [if_pos ⟨ha, hb, hc, harm⟩]

/-- Claim C10 (confirmed). After finished is true (so currentLap exceeds totalLaps),
every further qualifying start-line crossing still increments currentLap by 1 and
leaves finished true; iterating qualifying crossings grows currentLap without bound. -/
theorem c10_laps_grow_after_finish (i o angPrev ang r : ℝ) (race : RaceState)
    (ha : angPrev < 0) (hb : 0 ≤ ang) (hc : |r - (i + o) / 2| < (o - i) / 2)
    (hf : race.finished = true) (hl : race.totalLaps < race.currentLap) :
    ∀ n : ℕ, ((qualifyingCross i o angPrev ang r)^[n] race).currentLap =
        race.currentLap + n ∧
      ((qualifyingCross i o angPrev ang r)^[n] race).finished = true ∧
      ((qualifyingCross i o angPrev ang r)^[n] race).totalLaps = race.totalLaps := by
  intro n
  induction n with
  | zero => exact ⟨by simp, hf, rfl⟩
  | succ n ih =>
    rw [Function.iterate_succ_apply', qualifyingCross_eq i o angPrev ang r _ ha hb hc]
    refine ⟨?_, ?_, ?_⟩
    · dsimp only
      rw [ih.1]
      push_cast
      ring
    · dsimp only
      rw [decide_eq_true_iff]
      have h1 := ih.1
      have h2 := ih.2.2
      omega
    · dsimp only
      exact ih.2.2

/-- Witness for C10: from lap 2 of a finished 1-lap race, three more qualifying
crossings reach lap 5 with finished still true. -/
theorem c10_witness :
    ((-0.1 : ℝ) < 0 ∧ (0 : ℝ) ≤ 0.2 ∧ |(17 : ℝ) - (12 + 22) / 2| < (22 - 12) / 2 ∧
      (⟨2, 1, true, 12, 22⟩ : RaceState).finished = true ∧
      (⟨2, 1, true, 12, 22⟩ : RaceState).totalLaps <
        (⟨2, 1, true, 12, 22⟩ : RaceState).currentLap) ∧
    ((qualifyingCross 12 22 (-0.1) 0.2 17)^[3] ⟨2, 1, true, 12, 22⟩).currentLap = 5 ∧
    ((qualifyingCross 12 22 (-0.1) 0.2 17)^[3] ⟨2, 1, true, 12, 22⟩).finished = true := by
  have h := c10_laps_grow_after_finish 12 22 (-0.1) 0.2 17 ⟨2, 1, true, 12, 22⟩
    (by norm_num) (by norm_num) (by norm_num) rfl (by norm_num) 3
  refine ⟨⟨by norm_num, by norm_num, by norm_num, rfl, by norm_num⟩, ?_, h.2.1⟩
  rw [h.1]
  norm_num

lemma scaled_radius (px pz c : ℝ) (hc : 0 ≤ c) (hr : 0 < Real.sqrt (px ^ 2 + pz ^ 2)) :
    Real.sqrt ((px * (c / Real.sqrt (px ^ 2 + pz ^ 2))) ^ 2 +
      (pz * (c / Real.sqrt (px ^ 2 + pz ^ 2))) ^ 2) = c := by
  rw [radius_scale _ _ _ (div_nonneg hc (Real.sqrt_nonneg _))]
  field_simp

/-- Claim C6 (confirmed). After boundary resolution the radius lies in
[innerRadius, outerRadius] (hence within any ε relaxation of it), and whenever the
pre-constraint radius exceeds outerRadius the vehicle is relocated onto the outer
boundary in one step with forwardSpeed multiplied by 0.6. -/
theorem c6_boundary_invariant (i o px pz v : ℝ)
    (hr : 0 < Real.sqrt (px ^ 2 + pz ^ 2)) (hi : 0 < i) (hio : i ≤ o) :
    (i ≤ Real.sqrt ((boundaryStep i o px pz v).1 ^ 2 + (boundaryStep i o px pz v).2.1 ^ 2) ∧
      Real.sqrt ((boundaryStep i o px pz v).1 ^ 2 + (boundaryStep i o px pz v).2.1 ^ 2) ≤ o) ∧
    (o < Real.sqrt (px ^ 2 + pz ^ 2) →
      Real.sqrt ((boundaryStep i o px pz v).1 ^ 2 + (boundaryStep i o px pz v).2.1 ^ 2) = o ∧
      (boundaryStep i o px pz v).2.2 = v * 0.6) := by
  unfold boundaryStep
  dsimp only
  by_cases h1 : Real.sqrt (px ^ 2 + pz ^ 2) < i
  · have h2 : ¬ Real.sqrt (px ^ 2 + pz ^ 2) > o := by
      push_neg
      linarith
    rw [if_pos h1, if_pos h1, if_pos h1, if_neg h2, if_neg h2, if_neg h2]
    rw [scaled_radius px pz i hi.le hr]
    exact ⟨⟨le_refl i, hio⟩, fun h => absurd h (by push_neg; linarith)⟩
  · by_cases h2 : Real.sqrt (px ^ 2 + pz ^ 2) > o
    · rw [if_neg h1, if_neg h1, if_neg h1, if_pos h2, if_pos h2, if_pos h2]
      rw [scaled_radius px pz o (by linarith) hr]
      exact ⟨⟨hio, le_refl o⟩, fun h => ⟨rfl, rfl⟩⟩
    · rw [if_neg h1, if_neg h1, if_neg h1, if_neg h2, if_neg h2, if_neg h2]
      exact ⟨⟨not_lt.mp h1, not_lt.mp h2⟩, fun h => absurd h h2⟩

/-- Witness for C6: on the 12/22 ring, a vehicle at radius 30 is relocated to radius 22
and its forward speed 10 becomes 10 * 0.6. -/
theorem c6_witness :
    (0 < Real.sqrt ((30 : ℝ) ^ 2 + 0 ^ 2) ∧ (0 : ℝ) < 12 ∧ (12 : ℝ) ≤ 22 ∧
      (22 : ℝ) < Real.sqrt ((30 : ℝ) ^ 2 + 0 ^ 2)) ∧
    Real.sqrt ((boundaryStep 12 22 30 0 10).1 ^ 2 + (boundaryStep 12 22 30 0 10).2.1 ^ 2) = 22 ∧
    (boundaryStep 12 22 30 0 10).2.2 = 10 * 0.6 := by
  have hs : Real.sqrt ((30 : ℝ) ^ 2 + 0 ^ 2) = 30 := sqrt_x_sq 30 (by norm_num)
  have hyp1 : 0 < Real.sqrt ((30 : ℝ) ^ 2 + 0 ^ 2) := by rw [hs]; norm_num
  have hyp4 : (22 : ℝ) < Real.sqrt ((30 : ℝ) ^ 2 + 0 ^ 2) := by rw [hs]; norm_num
  exact ⟨⟨hyp1, by norm_num, by norm_num, hyp4⟩,
    (c6_boundary_invariant 12 22 30 0 10 hyp1 (by norm_num) (by norm_num)).2 hyp4⟩

/-- Claim C8 counterexample. The claim says radial normalization is skipped whenever
r is below 1e-6; but at radius 1e-7 the code still applies the division by r, scaling
the position from x = 1e-7 onto the inner boundary x = 12. -/
theorem c8_counterexample :
    Real.sqrt ((1 / 10 ^ 7 : ℝ) ^ 2 + 0 ^ 2) < 1 / 10 ^ 6 ∧
    (boundaryStep 12 22 (1 / 10 ^ 7) 0 1).1 = 12 ∧ ((12 : ℝ) ≠ 1 / 10 ^ 7) := by
  have hs : Real.sqrt ((1 / 10 ^ 7 : ℝ) ^ 2 + 0 ^ 2) = 1 / 10 ^ 7 :=
    sqrt_x_sq _ (by norm_num)
  refine ⟨by rw [hs]; norm_num, ?_, by norm_num⟩
  unfold boundaryStep
  dsimp only
  rw [hs]
  rw [if_neg (by norm_num), if_pos (by norm_num)]
  norm_num

/-- Claim C8 as amended. There is no epsilon guard: the division by r is applied
whenever r < innerRadius, including radii below 1e-6; for every positive radius the
update is still well defined and lands exactly on the inner boundary with
forwardSpeed scaled by 0.6 (only r = 0 itself is degenerate, dividing by zero). -/
theorem c8_division_applied_below_epsilon (px pz v i o : ℝ)
    (h0 : 0 < Real.sqrt (px ^ 2 + pz ^ 2))
    (hsm : Real.sqrt (px ^ 2 + pz ^ 2) < 1 / 10 ^ 6)
    (hi : 1 / 10 ^ 6 ≤ i) (hio : i ≤ o) :
    Real.sqrt ((boundaryStep i o px pz v).1 ^ 2 + (boundaryStep i o px pz v).2.1 ^ 2) = i ∧
    (boundaryStep i o px pz v).2.2 = v * 0.6 := by
  have h1 : Real.sqrt (px ^ 2 + pz ^ 2) < i := lt_of_lt_of_le hsm hi
  have h2 : ¬ Real.sqrt (px ^ 2 + pz ^ 2) > o := by
    push_neg
    linarith
  unfold boundaryStep
  dsimp only
  rw [if_pos h1, if_pos h1, if_pos h1, if_neg h2, if_neg h2, if_neg h2]
  exact ⟨scaled_radius px pz i (by linarith) h0, rfl⟩

/-- Witness for C8 as amended, at radius 1e-7 on the 12/22 ring. -/
theorem c8_witness :
    (0 < Real.sqrt ((1 / 10 ^ 7 : ℝ) ^ 2 + 0 ^ 2) ∧
      Real.sqrt ((1 / 10 ^ 7 : ℝ) ^ 2 + 0 ^ 2) < 1 / 10 ^ 6 ∧
      (1 / 10 ^ 6 : ℝ) ≤ 12 ∧ (12 : ℝ) ≤ 22) ∧
    Real.sqrt ((boundaryStep 12 22 (1 / 10 ^ 7) 0 1).1 ^ 2 +
      (boundaryStep 12 22 (1 / 10 ^ 7) 0 1).2.1 ^ 2) = 12 ∧
    (boundaryStep 12 22 (1 / 10 ^ 7) 0 1).2.2 = 1 * 0.6 := by
  have hs : Real.sqrt ((1 / 10 ^ 7 : ℝ) ^ 2 + 0 ^ 2) = 1 / 10 ^ 7 :=
    sqrt_x_sq _ (by norm_num)
  have hyp1 : 0 < Real.sqrt ((1 / 10 ^ 7 : ℝ) ^ 2 + 0 ^ 2) := by rw [hs]; norm_num
  have hyp2 : Real.sqrt ((1 / 10 ^ 7 : ℝ) ^ 2 + 0 ^ 2) < 1 / 10 ^ 6 := by rw [hs]; norm_num
  exact ⟨⟨hyp1, hyp2, by norm_num, by norm_num⟩,
    c8_division_applied_below_epsilon (1 / 10 ^ 7) 0 1 12 22 hyp1 hyp2 (by norm_num)
      (by norm_num)⟩

lemma boostPadStep_fire (M t ang r c i o : ℝ) (acc : ℝ × ℝ) (a : ℝ)
    (hp : onPad ang r c i o a) (hcool : t - acc.2 > 1.0) :
    boostPadStep M t ang r c i o acc a = (min (M * 1.2) (acc.1 + 8), t) := by
  unfold boostPadStep
  rw [if_pos ⟨hp, hcool⟩]

lemma boostPadStep_skip_pad (M t ang r c i o : ℝ) (acc : ℝ × ℝ) (a : ℝ)
    (hp : ¬ onPad ang r c i o a) :
    boostPadStep M t ang r c i o acc a = acc := by
  unfold boostPadStep
  exact if_neg (fun h => hp h.1)

lemma boostPadStep_skip_cool (M t ang r c i o x y : ℝ) (a : ℝ)
    (hc : ¬ t - y > 1.0) :
    boostPadStep M t ang r c i o (x, y) a = (x, y) := by
  unfold boostPadStep
  exact if_neg (fun h => hc h.2)

/-- Claim C7 (confirmed). On a pad: if more than 1.0 simulated second has elapsed since
this vehicle's last boost, forwardSpeed becomes min(1.2 * maxSpeed, forwardSpeed + 8)
and the boost timestamp is set to the current time (so the cooldown is per vehicle,
shared across all pads); if 1.0 second or less has elapsed, the pad loop leaves speed
and timestamp untouched. -/
theorem c7_boost_cooldown (M t ang r c i o v ts : ℝ) :
    ((∃ a ∈ boostPads, onPad ang r c i o a) → t - ts > 1.0 →
      boostStep M t ang r c i o v ts = (min (M * 1.2) (v + 8), t)) ∧
    (¬ t - ts > 1.0 → boostStep M t ang r c i o v ts = (v, ts)) := by
  have hcool0 : ¬ (t - t > 1.0) := by
    rw [sub_self]
    norm_num
  constructor
  · rintro ⟨a, ha, hpad⟩ hcool
    unfold boostStep boostPads
    rw [List.foldl_cons, List.foldl_cons, List.foldl_cons, List.foldl_nil]
    simp only [boostPads, List.mem_cons, List.mem_singleton, List.not_mem_nil,
      or_false] at ha
    by_cases hp1 : onPad ang r c i o (Real.pi / 4)
    · rw [boostPadStep_fire M t ang r c i o (v, ts) (Real.pi / 4) hp1 hcool,
        boostPadStep_skip_cool M t ang r c i o _ t Real.pi hcool0,
        boostPadStep_skip_cool M t ang r c i o _ t (3 * Real.pi / 2) hcool0]
    · rw [boostPadStep_skip_pad _ _ _ _ _ _ _ _ _ hp1]
      by_cases hp2 : onPad ang r c i o Real.pi
      · rw [boostPadStep_fire M t ang r c i o (v, ts) Real.pi hp2 hcool,
          boostPadStep_skip_cool M t ang r c i o _ t (3 * Real.pi / 2) hcool0]
      · rw [boostPadStep_skip_pad _ _ _ _ _ _ _ _ _ hp2]
        have hp3 : onPad ang r c i o (3 * Real.pi / 2) := by
          rcases ha with h | h | h
          · exact absurd (h ▸ hpad) hp1
          · exact absurd (h ▸ hpad) hp2
          · exact h ▸ hpad
        rw [boostPadStep_fire M t ang r c i o (v, ts) (3 * Real.pi / 2) hp3 hcool]
  · intro hcool
    unfold boostStep boostPads
    rw [List.foldl_cons, List.foldl_cons, List.foldl_cons, List.foldl_nil,
      boostPadStep_skip_cool M t ang r c i o v ts (Real.pi / 4) hcool,
      boostPadStep_skip_cool M t ang r c i o v ts Real.pi hcool,
      boostPadStep_skip_cool M t ang r c i o v ts (3 * Real.pi / 2) hcool]

lemma onPad_pi_center : onPad Real.pi 17 17 12 22 Real.pi := by
  have hpi := Real.pi_pos
  constructor
  · rw [sub_self, normalizeAngle_eq_self 0 (by linarith) (by linarith), abs_zero]
    positivity
  · rw [sub_self, abs_zero]
    norm_num

/-- Witness for C7: on the pad at angle π, 2 seconds after the last boost, speed 5
becomes min(28 * 1.2, 5 + 8) and the timestamp becomes 2. -/
theorem c7_witness :
    ((∃ a ∈ boostPads, onPad Real.pi 17 17 12 22 a) ∧ (2 : ℝ) - 0 > 1.0) ∧
    boostStep 28 2 Real.pi 17 17 12 22 5 0 = (min (28 * 1.2) (5 + 8), 2) := by
  have hp : ∃ a ∈ boostPads, onPad Real.pi 17 17 12 22 a := by
    refine ⟨Real.pi, ?_, onPad_pi_center⟩
    unfold boostPads
    simp
  have hc : (2 : ℝ) - 0 > 1.0 := by norm_num
  exact ⟨⟨hp, hc⟩, (c7_boost_cooldown 28 2 Real.pi 17 17 12 22 5 0).1 hp hc⟩

lemma velAfterInputs_mem (car : CarStats) (ctl : Controls) (dt v : ℝ)
    (hM : 0 ≤ car.maxSpeed) :
    -car.maxSpeed * 0.3 ≤ velAfterInputs car ctl dt v ∧
      velAfterInputs car ctl dt v ≤ car.maxSpeed := by
  have hlo : -car.maxSpeed * 0.3 ≤ car.maxSpeed := by nlinarith
  unfold velAfterInputs
  dsimp only
  by_cases hd : ctl.down <;> by_cases hu : ctl.up <;>
    simp only [hd, hu, if_true, if_false, Bool.false_eq_true] <;>
    exact ⟨lo_le_clamp _ _ _ hlo, clamp_le_hi _ _ _⟩

lemma boostPadStep_vel_mem (M t ang r c i o : ℝ) (acc : ℝ × ℝ) (a : ℝ) (hM : 0 ≤ M)
    (h1 : -M * 0.3 ≤ acc.1) (h2 : acc.1 ≤ M * 1.2) :
    -M * 0.3 ≤ (boostPadStep M t ang r c i o acc a).1 ∧
      (boostPadStep M t ang r c i o acc a).1 ≤ M * 1.2 := by
  unfold boostPadStep
  split_ifs with h
  · exact ⟨le_min (by nlinarith) (by nlinarith), min_le_left _ _⟩
  · exact ⟨h1, h2⟩

lemma boost_foldl_vel_mem (M t ang r c i o : ℝ) (hM : 0 ≤ M) :
    ∀ (pads : List ℝ) (acc : ℝ × ℝ), -M * 0.3 ≤ acc.1 → acc.1 ≤ M * 1.2 →
      -M * 0.3 ≤ (pads.foldl (boostPadStep M t ang r c i o) acc).1 ∧
        (pads.foldl (boostPadStep M t ang r c i o) acc).1 ≤ M * 1.2
  | [], acc, h1, h2 => ⟨h1, h2⟩
  | p :: ps, acc, h1, h2 => by
    rw [List.foldl_cons]
    have h := boostPadStep_vel_mem M t ang r c i o acc p hM h1 h2
    exact boost_foldl_vel_mem M t ang r c i o hM ps _ h.1 h.2

lemma boundaryStep_vel_mem (i o px pz v M : ℝ) (hM : 0 ≤ M)
    (h1 : -M * 0.3 ≤ v) (h2 : v ≤ M) :
    -M * 0.3 ≤ (boundaryStep i o px pz v).2.2 ∧ (boundaryStep i o px pz v).2.2 ≤ M := by
  unfold boundaryStep
  dsimp only
  split_ifs <;> constructor <;> nlinarith

/-- Claim C2 as amended. For every tick, every input combination and every dt, the
forwardSpeed at the end of the full tick lies within
[-0.3 * maxSpeed, 1.2 * maxSpeed]; the upper bound maxSpeed claimed by the spec holds
only before boost-pad application, which can push the speed up to 1.2 * maxSpeed. -/
theorem c2_forwardSpeed_bounds (car : CarStats) (ctl : Controls) (t dtRaw : ℝ)
    (k : KartState) (race : RaceState) (hM : 0 ≤ car.maxSpeed) :
    -car.maxSpeed * 0.3 ≤ (kartTick car ctl t dtRaw k race).1.vel ∧
      (kartTick car ctl t dtRaw k race).1.vel ≤ car.maxSpeed * 1.2 := by
  have hv2 := velAfterInputs_mem car ctl (if dtRaw > 0.05 then 0.05 else dtRaw) k.vel hM
  have hv3 := boundaryStep_vel_mem race.innerR race.outerR
    (k.posX + Real.cos (yawAfterSteer car ctl (if dtRaw > 0.05 then 0.05 else dtRaw)
        (velAfterInputs car ctl (if dtRaw > 0.05 then 0.05 else dtRaw) k.vel) k.yaw) *
      velAfterInputs car ctl (if dtRaw > 0.05 then 0.05 else dtRaw) k.vel *
      (if dtRaw > 0.05 then 0.05 else dtRaw))
    (k.posZ + Real.sin (yawAfterSteer car ctl (if dtRaw > 0.05 then 0.05 else dtRaw)
        (velAfterInputs car ctl (if dtRaw > 0.05 then 0.05 else dtRaw) k.vel) k.yaw) *
      velAfterInputs car ctl (if dtRaw > 0.05 then 0.05 else dtRaw) k.vel *
      (if dtRaw > 0.05 then 0.05 else dtRaw))
    (velAfterInputs car ctl (if dtRaw > 0.05 then 0.05 else dtRaw) k.vel)
    car.maxSpeed hM hv2.1 hv2.2
  unfold kartTick
  dsimp only
  unfold boostStep
  exact boost_foldl_vel_mem car.maxSpeed t _ _ _ _ _ hM boostPads _ hv3.1
    (le_trans hv3.2 (by nlinarith))

/-- Witness for C2 as amended, at a concrete tick of the Sprinter car. -/
theorem c2_witness :
    (0 : ℝ) ≤ sprinter.maxSpeed ∧
    (-sprinter.maxSpeed * 0.3 ≤
        (kartTick sprinter ctlNone 0 0.02 kartInit (initialRaceState 3)).1.vel ∧
      (kartTick sprinter ctlNone 0 0.02 kartInit (initialRaceState 3)).1.vel ≤
        sprinter.maxSpeed * 1.2) :=
  ⟨by norm_num [sprinter],
    c2_forwardSpeed_bounds sprinter ctlNone 0 0.02 kartInit (initialRaceState 3)
      (by norm_num [sprinter])⟩

lemma yawA (car : CarStats) (dt v y : ℝ) : yawAfterSteer car ctlNone dt v y = y := by
  unfold yawAfterSteer ctlNone
  simp

lemma velA : velAfterInputs sprinter ctlNone 0.05 28 = 27.886 := by
  unfold velAfterInputs ctlNone sprinter
  simp only [Bool.false_eq_true, if_false]
  rw [clamp_of_mem _ _ _ (by norm_num) (by norm_num)]
  norm_num

lemma sqrtNeg17 : Real.sqrt ((-17 : ℝ) ^ 2 + 0 ^ 2) = 17 := by
  rw [show ((-17 : ℝ)) ^ 2 + 0 ^ 2 = 17 ^ 2 by norm_num,
    Real.sqrt_sq (by norm_num : (0 : ℝ) ≤ 17)]

lemma sqrt289 : Real.sqrt (289 : ℝ) = 17 := by
  rw [show (289 : ℝ) = 17 ^ 2 by norm_num, Real.sqrt_sq (by norm_num : (0 : ℝ) ≤ 17)]

lemma boundaryD : boundaryStep 12 22 (-17) 0 27.886 = (-17, 0, 27.886) := by
  unfold boundaryStep
  dsimp only
  rw [sqrtNeg17]
  norm_num

lemma atan2D : atan2 0 (-17) = Real.pi := atan2_zero_neg (-17) (by norm_num)

lemma boostF : boostStep 28 2 Real.pi 17 17 12 22 27.886 0 = (33.6, 2) := by
  have hpi := Real.pi_pos
  have hnp1 : ¬ onPad Real.pi 17 17 12 22 (Real.pi / 4) := by
    rintro ⟨h, -⟩
    rw [normalizeAngle_eq_self _ (by linarith) (by linarith),
      abs_of_nonneg (by linarith)] at h
    linarith
  unfold boostStep boostPads
  rw [List.foldl_cons, List.foldl_cons, List.foldl_cons, List.foldl_nil,
    boostPadStep_skip_pad _ _ _ _ _ _ _ _ _ hnp1,
    boostPadStep_fire 28 2 Real.pi 17 17 12 22 (27.886, 0) Real.pi onPad_pi_center
      (by norm_num),
    boostPadStep_skip_cool 28 2 Real.pi 17 17 12 22 _ 2 (3 * Real.pi / 2) (by norm_num)]
  norm_num [min_def]

/-- Claim C2 counterexample. At a full tick of the Sprinter (maxSpeed 28) that lands on
the boost pad at angle π with the cooldown elapsed, an in-range starting speed of 28
ends the tick at 33.6 > maxSpeed, violating the claimed end-of-tick bound
[-0.3 * maxSpeed, maxSpeed]. -/
theorem c2_counterexample :
    (-sprinter.maxSpeed * 0.3 ≤ 28 ∧ (28 : ℝ) ≤ sprinter.maxSpeed) ∧
    (kartTick sprinter ctlNone 2 0.05 ⟨28, 0, -18.3943, 0, 0, false, 0⟩
        (initialRaceState 3)).1.vel = 33.6 ∧
    sprinter.maxSpeed < 33.6 := by
  refine ⟨⟨by norm_num [sprinter], by norm_num [sprinter]⟩, ?_, by norm_num [sprinter]⟩
  unfold kartTick initialRaceState
  dsimp only
  rw [ite_self]
  rw [velA, yawA, Real.cos_zero, Real.sin_zero]
  rw [show (-18.3943 : ℝ) + 1 * 27.886 * 0.05 = -17 by norm_num]
  simp only [zero_mul, add_zero]
  rw [boundaryD]
  dsimp only
  rw [atan2D, sqrtNeg17]
  rw [show ((12 : ℝ) + 22) / 2 = 17 by norm_num]
  unfold sprinter
  dsimp only
  rw [boostF]

lemma boost_ang_zero (M T r c i o w lastB : ℝ) :
    boostStep M T 0 r c i o w lastB = (w, lastB) := by
  have hpi := Real.pi_pos
  have hnp1 : ¬ onPad 0 r c i o (Real.pi / 4) := by
    rintro ⟨h, -⟩
    rw [zero_sub, normalizeAngle_eq_self _ (by linarith) (by linarith), abs_neg,
      abs_of_nonneg (by linarith)] at h
    linarith
  have hnp2 : ¬ onPad 0 r c i o Real.pi := by
    rintro ⟨h, -⟩
    rw [zero_sub, normalizeAngle_eq_self _ (le_refl _) (by linarith), abs_neg,
      abs_of_nonneg (by linarith)] at h
    linarith
  have hnp3 : ¬ onPad 0 r c i o (3 * Real.pi / 2) := by
    rintro ⟨h, -⟩
    rw [zero_sub, normalizeAngle_add_two_pi _ (by linarith) (by linarith),
      abs_of_nonneg (by linarith)] at h
    linarith
  unfold boostStep boostPads
  rw [List.foldl_cons, List.foldl_cons, List.foldl_cons, List.foldl_nil,
    boostPadStep_skip_pad _ _ _ _ _ _ _ _ _ hnp1,
    boostPadStep_skip_pad _ _ _ _ _ _ _ _ _ hnp2,
    boostPadStep_skip_pad _ _ _ _ _ _ _ _ _ hnp3]

lemma lap_ang_zero (i o r : ℝ) (race : RaceState) :
    lapStep i o 0 0 r false race = (false, race) := by
  have hpi := Real.pi_pos
  have harm : armedAfterHalf 0 0 false = false := by
    unfold armedAfterHalf
    rw [if_neg]
    rintro (⟨-, h⟩ | ⟨-, h⟩) <;> linarith
  unfold lapStep
  dsimp only
  rw [harm, if_neg]
  rintro ⟨h, -⟩
  exact lt_irrefl _ h

lemma boundary_inside (i o X v : ℝ) (h1 : ¬ Real.sqrt (X ^ 2 + 0 ^ 2) < i)
    (h2 : ¬ Real.sqrt (X ^ 2 + 0 ^ 2) > o) :
    boundaryStep i o X 0 v = (X, 0, v) := by
  unfold boundaryStep
  dsimp only
  rw [if_neg h1, if_neg h1, if_neg h1, if_neg h2, if_neg h2, if_neg h2]

lemma velCoast (v : ℝ) (h1 : -8 ≤ v) (h2 : v ≤ 0) :
    velAfterInputs sprinter ctlNone 0.05 v = v - 0.114 := by
  unfold velAfterInputs ctlNone sprinter
  simp only [Bool.false_eq_true, if_false]
  rw [clamp_of_mem _ _ _ (by norm_num; linarith) (by norm_num; linarith)]
  norm_num

lemma coastTick (x v T : ℝ) (cl tl : ℤ) (f : Bool) (lastB : ℝ)
    (hv1 : -8 ≤ v) (hv2 : v ≤ 0)
    (hx1 : 12 < x + (v - 0.114) * 0.05) (hx2 : x + (v - 0.114) * 0.05 < 22) :
    kartTick sprinter ctlNone T 0.05 ⟨v, 0, x, 0, 0, false, lastB⟩ ⟨cl, tl, f, 12, 22⟩ =
      (⟨v - 0.114, 0, x + (v - 0.114) * 0.05, 0, 0, false, lastB⟩,
        ⟨cl, tl, f, 12, 22⟩) := by
  have hX : 0 < x + (v - 0.114) * 0.05 := by linarith
  unfold kartTick
  dsimp only
  rw [ite_self]
  rw [velCoast v hv1 hv2, yawA, Real.cos_zero, Real.sin_zero, one_mul]
  simp only [zero_mul, add_zero]
  rw [boundary_inside 12 22 _ (v - 0.114)
    (by rw [sqrt_x_sq _ hX.le]; push_neg; linarith)
    (by rw [sqrt_x_sq _ hX.le]; push_neg; linarith)]
  dsimp only
  rw [atan2_zero_pos _ hX, sqrt_x_sq _ hX.le, boost_ang_zero, lap_ang_zero]

/-- The coast scenario closed form: after n ≤ 20 all-false ticks from the start state,
forward speed is -0.114 n and the x coordinate is 17 - 0.00285 n (n + 1), while yaw,
z, the checkpoint and the race store are unchanged. -/
lemma coastRun_closed : ∀ n : ℕ, n ≤ 20 →
    coastRun n = (⟨-0.114 * n, 0, 17 - 0.00285 * n * (n + 1), 0, 0, false, 0⟩,
      (⟨1, 3, false, 12, 22⟩ : RaceState))
  | 0, h => by
    unfold coastRun kartInit initialRaceState
    norm_num
  | n + 1, h => by
    have hn : (n : ℝ) ≤ 19 := by
      have hle : n ≤ 19 := by omega
      exact_mod_cast hle
    have hn0 : (0 : ℝ) ≤ (n : ℝ) := Nat.cast_nonneg n
    have hrec := coastRun_closed n (by omega)
    show kartTick sprinter ctlNone (n * 0.05) 0.05 (coastRun n).1 (coastRun n).2 = _
    rw [hrec]
    dsimp only
    rw [coastTick (17 - 0.00285 * n * (n + 1)) (-0.114 * n) (n * 0.05) 1 3 false 0
      (by linarith) (by linarith)
      (by nlinarith [mul_nonneg (sub_nonneg.mpr hn) hn0])
      (by nlinarith [mul_nonneg hn0 (by linarith : (0 : ℝ) ≤ (n : ℝ) + 1)])]
    congr 1
    congr 1 <;> first | rfl | (push_cast; ring)

/-- Claim C3 counterexample. From the start state at rest (vel = 0, x = 17) with all
four intents false for one second of simulated time (20 ticks of the clamped maximum
dt = 0.05), the position is NOT unchanged: coast friction drives the speed negative
and the kart drifts to x = 15.803. -/
theorem c3_counterexample :
    kartInit.vel = 0 ∧ (20 : ℝ) * 0.05 = 1 ∧ (coastRun 20).1.posX ≠ kartInit.posX := by
  refine ⟨rfl, by norm_num, ?_⟩
  rw [coastRun_closed 20 (le_refl 20)]
  unfold kartInit
  dsimp only
  push_cast
  norm_num

/-- Claim C3 as amended. In the same one-second all-intents-false scenario the heading
is unchanged, but the position is not: the x coordinate strictly decreases, because
coast friction makes forwardSpeed negative (the spec itself allows this decay below
zero, bounded by -0.3 * maxSpeed). -/
theorem c3_heading_fixed_position_drifts :
    (coastRun 20).1.yaw = kartInit.yaw ∧ (coastRun 20).1.posX < kartInit.posX := by
  rw [coastRun_closed 20 (le_refl 20)]
  unfold kartInit
  dsimp only
  refine ⟨rfl, ?_⟩
  push_cast
  norm_num

end HyperKart
